import Mathlib

/-!
# StackAllocator: the `Pool<N, alignment>` bump allocator

A shallow embedding of `src/StackAllocator.cpp`.

* `std::size_t` values are natural numbers below `2 ^ 64`; every `size_t`
  operation of the source is followed by an explicit reduction modulo `2 ^ 64`.
* A `char*` is the address it holds, a natural number below `2 ^ 64`; adding a
  `size_t` to a pointer is addition of addresses modulo `2 ^ 64`.
* `Pool<N, alignment>` has two data members: the array `m_buffer`, of which only
  the address matters here, and the cursor `m_ptr`.  The template parameters and
  the address of `m_buffer` never change during the life of a pool and are kept
  in `PoolCfg`; the mutable part, `m_ptr`, is the `Pool` state.
* `assert` is active unless the translation unit is compiled with `NDEBUG`; the
  flag `ndebug` selects the build.
-/

namespace StackAllocator

/-- Number of values of `std::size_t` (and of addresses). -/
abbrev SIZE_MOD : Nat := 2 ^ 64

/-- Reduction of a natural number to a `std::size_t` value. -/
def wrap (x : Nat) : Nat := x % SIZE_MOD

/-- The `size_t` expression `~x`. -/
def bnot (x : Nat) : Nat := SIZE_MOD - 1 - wrap x

/-- Template parameters `N` and `alignment` of `Pool`, and the address of the
member array `m_buffer`. -/
structure PoolCfg where
  N : Nat
  alignment : Nat
  m_buffer : Nat
deriving DecidableEq, Repr

/-- The array `m_buffer[N]` and its one-past-the-end address lie in the address
space. -/
def PoolCfg.Fits (cfg : PoolCfg) : Prop := cfg.m_buffer + cfg.N < SIZE_MOD

instance (cfg : PoolCfg) : Decidable cfg.Fits := by
  unfold PoolCfg.Fits; infer_instance

/-- The mutable state of a `Pool`: the cursor `char *m_ptr`. -/
structure Pool where
  m_ptr : Nat
deriving DecidableEq, Repr

/-- `Pool() noexcept : m_ptr(m_buffer)`. -/
def Pool.init (cfg : PoolCfg) : Pool := { m_ptr := cfg.m_buffer }

/-- The `size_t` expression `alignment - 1`. -/
def alignMask (alignment : Nat) : Nat := wrap (alignment + (SIZE_MOD - 1))

/-- `align_up`: `return ( n + (alignment-1) ) & ~( alignment-1 );`. -/
def align_up (alignment n : Nat) : Nat :=
  wrap (n + alignMask alignment) &&& bnot (alignMask alignment)

/-- `pointer_within_buffer`: `return m_buffer <= p && p <= m_buffer + N;`. -/
def pointer_within_buffer (cfg : PoolCfg) (p : Nat) : Bool :=
  decide (cfg.m_buffer ≤ p) && decide (p ≤ cfg.m_buffer + cfg.N)

/-- How a call of `Pool::allocate` ends. -/
inductive AllocOutcome where
  /-- `return r;` with `r` the cursor before the call. -/
  | block (r : Nat)
  /-- `assert( pointer_within_buffer(m_ptr) && ... )` failed. -/
  | assertOutside
  /-- `assert( false && "Need more space" )` was reached with `assert` active. -/
  | assertNeedMoreSpace
  /-- `return nullptr;` was reached (only when `assert` is compiled out). -/
  | null
deriving DecidableEq, Repr

/-- The call produced no block. -/
def AllocOutcome.isFailure : AllocOutcome → Bool
  | .block _ => false
  | _ => true

/-- The `size_t` value `static_cast<std::size_t>(m_buffer + N - m_ptr)`. -/
def remaining (cfg : PoolCfg) (st : Pool) : Nat :=
  wrap (cfg.m_buffer + cfg.N + (SIZE_MOD - wrap st.m_ptr))

/-- `Pool::allocate<reqAlign>(size)`.  The two `static_assert`s constrain the
template arguments at compile time and have no run-time effect. -/
def allocate (cfg : PoolCfg) (ndebug : Bool) (st : Pool) (size : Nat) :
    AllocOutcome × Pool :=
  if !ndebug && !pointer_within_buffer cfg st.m_ptr then
    (.assertOutside, st)
  else
    let aligned_n := align_up cfg.alignment size
    if remaining cfg st ≥ aligned_n then
      (.block st.m_ptr, { m_ptr := wrap (st.m_ptr + aligned_n) })
    else if ndebug then
      (.null, st)
    else
      (.assertNeedMoreSpace, st)

/-- `Pool::deallocate(p, size)`. -/
def deallocate (cfg : PoolCfg) (st : Pool) (p size : Nat) : Pool :=
  if pointer_within_buffer cfg p then
    let size := align_up cfg.alignment size
    if wrap (p + size) = st.m_ptr then
      { m_ptr := p }
    else
      st
  else
    st

/-- A call made on a pool by its client. -/
inductive Op where
  | alloc (size : Nat)
  | dealloc (p size : Nat)
deriving DecidableEq, Repr

/-- One call.  `none` when an active `assert` fails, which ends the program. -/
def step (cfg : PoolCfg) (ndebug : Bool) (st : Pool) : Op → Option Pool
  | .alloc size =>
    match allocate cfg ndebug st size with
    | (.assertOutside, _) => none
    | (.assertNeedMoreSpace, _) => none
    | (_, st') => some st'
  | .dealloc p size => some (deallocate cfg st p size)

/-- A sequence of calls, from left to right, starting in state `st`. -/
def run (cfg : PoolCfg) (ndebug : Bool) (st : Pool) : List Op → Option Pool
  | [] => some st
  | op :: ops =>
    match step cfg ndebug st op with
    | none => none
    | some st' => run cfg ndebug st' ops

/-- States a freshly constructed pool can be brought into by `allocate` and
`deallocate` calls. -/
def Reachable (cfg : PoolCfg) (ndebug : Bool) (st : Pool) : Prop :=
  ∃ ops : List Op, run cfg ndebug (Pool.init cfg) ops = some st

/-- The cursor points into the buffer or one past its end. -/
def InBounds (cfg : PoolCfg) (st : Pool) : Prop :=
  cfg.m_buffer ≤ st.m_ptr ∧ st.m_ptr ≤ cfg.m_buffer + cfg.N

instance (cfg : PoolCfg) (st : Pool) : Decidable (InBounds cfg st) := by
  unfold InBounds; infer_instance

/-- A block as the client sees it: the pointer `allocate` returned and the size
that was requested. -/
abbrev Block := Nat × Nat

/-- One call, together with the client's bookkeeping of the blocks it holds: a
block is entered when `allocate` returns it and struck off when it is passed to
`deallocate`. -/
def stepLive (cfg : PoolCfg) (ndebug : Bool) (s : Pool × List Block) :
    Op → Option (Pool × List Block)
  | .alloc size =>
    match allocate cfg ndebug s.1 size with
    | (.block r, st') => some (st', (r, size) :: s.2)
    | (.null, st') => some (st', s.2)
    | (.assertOutside, _) => none
    | (.assertNeedMoreSpace, _) => none
  | .dealloc p size => some (deallocate cfg s.1 p size, s.2.erase (p, size))

/-- A sequence of calls with the client's bookkeeping, from left to right. -/
def runLive (cfg : PoolCfg) (ndebug : Bool) (s : Pool × List Block) :
    List Op → Option (Pool × List Block)
  | [] => some s
  | op :: ops =>
    match stepLive cfg ndebug s op with
    | none => none
    | some s' => runLive cfg ndebug s' ops

/-- Stack discipline of a call sequence, judged along the run: every `deallocate`
passes the block the client obtained last among those it still holds, with the
size it was requested with. -/
def obeysStack (cfg : PoolCfg) (ndebug : Bool) (s : Pool × List Block) : List Op → Bool
  | [] => true
  | op :: ops =>
    (match op with
      | .alloc _ => true
      | .dealloc p size => decide (s.2.head? = some (p, size))) &&
    (match stepLive cfg ndebug s op with
      | none => true
      | some s' => obeysStack cfg ndebug s' ops)

/-- The requested byte ranges `[p, p + size)` of two blocks have no byte in
common. -/
def Block.disjoint (b c : Block) : Prop :=
  b.2 = 0 ∨ c.2 = 0 ∨ b.1 + b.2 ≤ c.1 ∨ c.1 + c.2 ≤ b.1

instance (b c : Block) : Decidable (Block.disjoint b c) := by
  unfold Block.disjoint; infer_instance

/-- Successive `allocate` calls for a list of sizes, all of which must return a
block; the blocks are listed in the order they were returned. -/
def allocateAll (cfg : PoolCfg) (ndebug : Bool) (st : Pool) :
    List Nat → Option (List Block × Pool)
  | [] => some ([], st)
  | s :: ss =>
    match allocate cfg ndebug st s with
    | (.block p, st1) =>
      match allocateAll cfg ndebug st1 ss with
      | some (bs, st2) => some ((p, s) :: bs, st2)
      | none => none
    | _ => none

/-- Successive `deallocate` calls for a list of blocks, from left to right. -/
def deallocateAll (cfg : PoolCfg) (st : Pool) : List Block → Pool
  | [] => st
  | b :: bs => deallocateAll cfg (deallocate cfg st b.1 b.2) bs

/-- Rounding up as the specification words it: the next multiple of `a` at or
above `x`, over the natural numbers.  It is compared with `align_up`. -/
def spec_next_multiple (a x : Nat) : Nat := (x + (a - 1)) / a * a

/-- The pools of a program: the state of the pool whose `m_buffer` lies at a
given address.  A reference `pool_type&` is represented by that address. -/
abbrev Store := Nat → Pool

/-- A store in which every pool is freshly constructed. -/
def Store.fresh : Store := fun m_buffer => { m_ptr := m_buffer }

/-- `MyAllocator<T, N, Align>`: the template arguments, of `T` only `sizeof(T)`,
and the data member `pool_type& m_pool`. -/
structure MyAllocator where
  sizeofT : Nat
  N : Nat
  Align : Nat
  m_pool : Nat
deriving DecidableEq, Repr

/-- The `Pool<size, alignment>` instance `m_pool` refers to. -/
def MyAllocator.pool_cfg (a : MyAllocator) : PoolCfg :=
  { N := a.N, alignment := a.Align, m_buffer := a.m_pool }

/-- `MyAllocator(pool_type& a) noexcept : m_pool(a)`.  The `static_assert` on
`size % alignment` is a compile-time condition on `N` and `Align`. -/
def MyAllocator.ofPool (sizeofT N Align pool : Nat) : MyAllocator :=
  { sizeofT := sizeofT, N := N, Align := Align, m_pool := pool }

/-- `template <class U> MyAllocator(const MyAllocator<U, N, alignment>& a)
noexcept : m_pool(a.m_pool)`: the adapter for an element type of size `sizeofT`
built from the adapter `a` for another element type. -/
def MyAllocator.rebind (sizeofT : Nat) (a : MyAllocator) : MyAllocator :=
  { sizeofT := sizeofT, N := a.N, Align := a.Align, m_pool := a.m_pool }

/-- `MyAllocator::allocate(n)`: `m_pool.allocate<alignof(T)>(n*sizeof(T))`, the
product being a `size_t` product. -/
def MyAllocator.allocate (a : MyAllocator) (ndebug : Bool) (σ : Store) (n : Nat) :
    AllocOutcome × Store :=
  let r := StackAllocator.allocate a.pool_cfg ndebug (σ a.m_pool) (wrap (n * a.sizeofT))
  (r.1, Function.update σ a.m_pool r.2)

/-- `MyAllocator::deallocate(p, n)`: `m_pool.deallocate(p, n*sizeof(T))`. -/
def MyAllocator.deallocate (a : MyAllocator) (σ : Store) (p n : Nat) : Store :=
  Function.update σ a.m_pool
    (StackAllocator.deallocate a.pool_cfg (σ a.m_pool) p (wrap (n * a.sizeofT)))

/-- The blocks held by a client that keeps stack discipline lie below the cursor
`c` like a stack: the newest block ends, after rounding, at `c`, is no longer
than its rounded size, and the older blocks are stacked below its start. -/
def Stacked (cfg : PoolCfg) : Nat → List Block → Prop
  | c, [] => cfg.m_buffer ≤ c
  | c, b :: bs =>
    b.1 + align_up cfg.alignment b.2 = c ∧ b.2 ≤ align_up cfg.alignment b.2 ∧
      Stacked cfg b.1 bs

/-! ## Arithmetic helpers -/

theorem wrap_of_lt {x : Nat} (h : x < SIZE_MOD) : wrap x = x := Nat.mod_eq_of_lt h

theorem wrap_lt (x : Nat) : wrap x < SIZE_MOD := Nat.mod_lt _ (by decide)

theorem align_up_lt (a n : Nat) : align_up a n < SIZE_MOD := by
  unfold align_up
  exact lt_of_le_of_lt Nat.and_le_left (wrap_lt _)

theorem remaining_of_inBounds {cfg : PoolCfg} {st : Pool} (hf : cfg.Fits)
    (hb : InBounds cfg st) : remaining cfg st = cfg.m_buffer + cfg.N - st.m_ptr := by
  unfold PoolCfg.Fits at hf
  obtain ⟨h1, h2⟩ := hb
  unfold remaining wrap
  rw [Nat.mod_eq_of_lt (lt_of_le_of_lt h2 hf)]
  have : cfg.m_buffer + cfg.N + (SIZE_MOD - st.m_ptr)
      = (cfg.m_buffer + cfg.N - st.m_ptr) + SIZE_MOD := by omega
  rw [this, Nat.add_mod_right]
  exact Nat.mod_eq_of_lt (by omega)

theorem within_of_inBounds {cfg : PoolCfg} {st : Pool} (hb : InBounds cfg st) :
    pointer_within_buffer cfg st.m_ptr = true := by
  unfold pointer_within_buffer
  simp [hb.1, hb.2]

theorem land_mask (k x : Nat) (hk : k ≤ 64) (hx : x < 2 ^ 64) :
    x &&& (2 ^ 64 - 2 ^ k) = x - x % 2 ^ k := by
  have h1 : (2:Nat) ^ 64 - 2 ^ k = 2 ^ k * (2 ^ (64 - k) - 1) := by
    rw [Nat.mul_sub, ← pow_add, Nat.add_sub_cancel' hk, mul_one]
  have h2 : x - x % 2 ^ k = 2 ^ k * (x / 2 ^ k) := by
    have := Nat.div_add_mod x (2 ^ k)
    omega
  rw [h1, h2]
  apply Nat.eq_of_testBit_eq
  intro j
  rw [Nat.testBit_and, Nat.testBit_mul_pow_two, Nat.testBit_mul_pow_two,
    Nat.testBit_two_pow_sub_one, ← Nat.shiftRight_eq_div_pow, Nat.testBit_shiftRight]
  by_cases hj : k ≤ j
  · have e : k + (j - k) = j := by omega
    simp only [hj, decide_True, Bool.true_and, e]
    by_cases hj2 : j < 64
    · have : j - k < 64 - k := by omega
      simp [this]
    · have hx2 : x < 2 ^ j :=
        lt_of_lt_of_le hx (Nat.pow_le_pow_right (by decide) (by omega))
      simp [Nat.testBit_lt_two_pow hx2]
  · simp [hj]

theorem two_pow_lt_size {k : Nat} (hk : k < 64) : 2 ^ k < SIZE_MOD :=
  Nat.pow_lt_pow_right (by decide) hk

theorem alignMask_pow2 {k : Nat} (hk : k < 64) : alignMask (2 ^ k) = 2 ^ k - 1 := by
  have h := two_pow_lt_size hk
  have hpos : 0 < 2 ^ k := Nat.two_pow_pos k
  unfold alignMask wrap
  have : 2 ^ k + (SIZE_MOD - 1) = (2 ^ k - 1) + SIZE_MOD := by
    have : 1 ≤ SIZE_MOD := by decide
    omega
  rw [this, Nat.add_mod_right]
  exact Nat.mod_eq_of_lt (by omega)

/-- For a power-of-two alignment the mask clears the low `k` bits. -/
theorem align_up_pow2 {k : Nat} (hk : k < 64) (n : Nat) :
    align_up (2 ^ k) n
      = wrap (n + (2 ^ k - 1)) - wrap (n + (2 ^ k - 1)) % 2 ^ k := by
  have h := two_pow_lt_size hk
  have hpos : 0 < 2 ^ k := Nat.two_pow_pos k
  unfold align_up
  rw [alignMask_pow2 hk]
  have hb : bnot (2 ^ k - 1) = 2 ^ 64 - 2 ^ k := by
    unfold bnot
    rw [wrap_of_lt (by omega)]
    show 2 ^ 64 - 1 - (2 ^ k - 1) = 2 ^ 64 - 2 ^ k
    omega
  rw [hb]
  exact land_mask k _ (by omega) (wrap_lt _)

theorem align_up_dvd {k : Nat} (hk : k < 64) (n : Nat) : 2 ^ k ∣ align_up (2 ^ k) n := by
  rw [align_up_pow2 hk]
  exact Nat.dvd_sub_mod _

/-- Without overflow of `n + (alignment-1)` the result is at least `n`. -/
theorem le_align_up {k : Nat} (hk : k < 64) {n : Nat} (hn : n + 2 ^ k ≤ SIZE_MOD) :
    n ≤ align_up (2 ^ k) n := by
  have hpos : 0 < 2 ^ k := Nat.two_pow_pos k
  rw [align_up_pow2 hk, wrap_of_lt (by omega)]
  have := Nat.mod_lt (n + (2 ^ k - 1)) hpos
  omega

/-! ## Behaviour of `allocate` and `deallocate` on states with the cursor in bounds -/

theorem allocate_fits {cfg : PoolCfg} {st : Pool} (ndebug : Bool) (size : Nat)
    (hf : cfg.Fits) (hb : InBounds cfg st)
    (h : st.m_ptr + align_up cfg.alignment size ≤ cfg.m_buffer + cfg.N) :
    allocate cfg ndebug st size
      = (.block st.m_ptr, { m_ptr := st.m_ptr + align_up cfg.alignment size }) := by
  have hr := remaining_of_inBounds hf hb
  have hw := within_of_inBounds hb
  unfold PoolCfg.Fits at hf
  unfold allocate
  simp only [hw, Bool.not_true, Bool.and_false, Bool.false_eq_true, if_false]
  rw [if_pos (by rw [hr]; omega), wrap_of_lt (by omega)]

theorem allocate_exhausted {cfg : PoolCfg} {st : Pool} (ndebug : Bool) (size : Nat)
    (hf : cfg.Fits) (hb : InBounds cfg st)
    (h : cfg.m_buffer + cfg.N < st.m_ptr + align_up cfg.alignment size) :
    allocate cfg ndebug st size
      = (if ndebug then .null else .assertNeedMoreSpace, st) := by
  have hr := remaining_of_inBounds hf hb
  have hw := within_of_inBounds hb
  obtain ⟨h1, h2⟩ := hb
  unfold allocate
  simp only [hw, Bool.not_true, Bool.and_false, Bool.false_eq_true, if_false]
  rw [if_neg (by rw [hr]; omega)]
  cases ndebug <;> rfl

theorem allocate_inBounds {cfg : PoolCfg} {st : Pool} (ndebug : Bool) (size : Nat)
    (hf : cfg.Fits) (hb : InBounds cfg st) :
    InBounds cfg (allocate cfg ndebug st size).2 := by
  by_cases h : st.m_ptr + align_up cfg.alignment size ≤ cfg.m_buffer + cfg.N
  · rw [allocate_fits ndebug size hf hb h]
    exact ⟨le_trans hb.1 (Nat.le_add_right _ _), h⟩
  · rw [allocate_exhausted ndebug size hf hb (by omega)]
    exact hb

theorem deallocate_top {cfg : PoolCfg} {st : Pool} {p size : Nat}
    (hp : pointer_within_buffer cfg p = true)
    (hw : wrap (p + align_up cfg.alignment size) = st.m_ptr) :
    deallocate cfg st p size = { m_ptr := p } := by
  unfold deallocate
  simp only [hp, hw, if_true]

theorem deallocate_noop {cfg : PoolCfg} {st : Pool} {p size : Nat}
    (h : ¬ (pointer_within_buffer cfg p = true ∧
        wrap (p + align_up cfg.alignment size) = st.m_ptr)) :
    deallocate cfg st p size = st := by
  unfold deallocate
  by_cases hp : pointer_within_buffer cfg p = true
  · have hw : ¬ wrap (p + align_up cfg.alignment size) = st.m_ptr := fun hw => h ⟨hp, hw⟩
    simp only [hp, hw, if_true, if_false]
  · simp only [hp, if_false, Bool.false_eq_true]

theorem deallocate_inBounds {cfg : PoolCfg} {st : Pool} (p size : Nat)
    (hb : InBounds cfg st) : InBounds cfg (deallocate cfg st p size) := by
  unfold deallocate
  by_cases hp : pointer_within_buffer cfg p = true
  · rw [if_pos hp]
    by_cases he : wrap (p + align_up cfg.alignment size) = st.m_ptr
    · simp only [he, if_true]
      unfold pointer_within_buffer at hp
      simp only [Bool.and_eq_true, decide_eq_true_eq] at hp
      exact hp
    · simp only [he, if_false]
      exact hb
  · rw [if_neg hp]
    exact hb

theorem step_inBounds {cfg : PoolCfg} {ndebug : Bool} {st st' : Pool} {op : Op}
    (hf : cfg.Fits) (hb : InBounds cfg st) (h : step cfg ndebug st op = some st') :
    InBounds cfg st' := by
  cases op with
  | alloc size =>
    have hi := allocate_inBounds ndebug size hf hb
    simp only [step] at h
    split at h
    · exact absurd h (by simp)
    · exact absurd h (by simp)
    · rename_i heq
      rw [heq] at hi
      exact Option.some.inj h ▸ hi
  | dealloc p size =>
    have : deallocate cfg st p size = st' := by simpa [step] using h
    exact this ▸ deallocate_inBounds p size hb

theorem run_inBounds {cfg : PoolCfg} {ndebug : Bool} (hf : cfg.Fits) (ops : List Op) :
    ∀ {st st' : Pool}, InBounds cfg st → run cfg ndebug st ops = some st' →
      InBounds cfg st' := by
  induction ops with
  | nil =>
    intro st st' hb h
    have : st = st' := by simpa [run] using h
    exact this ▸ hb
  | cons op ops ih =>
    intro st st' hb h
    unfold run at h
    split at h
    · exact absurd h (by simp)
    · rename_i s hs
      exact ih (step_inBounds hf hb hs) h

theorem init_inBounds (cfg : PoolCfg) : InBounds cfg (Pool.init cfg) :=
  ⟨Nat.le_refl _, Nat.le_add_right _ _⟩

theorem reachable_inBounds {cfg : PoolCfg} {ndebug : Bool} {st : Pool} (hf : cfg.Fits)
    (h : Reachable cfg ndebug st) : InBounds cfg st := by
  obtain ⟨ops, hops⟩ := h
  exact run_inBounds hf ops (init_inBounds cfg) hops

/-! ## `Pool::allocate` -/

/-- C1. Success case of `Pool::allocate`: in a pool whose cursor is at offset `c`
of the buffer, `0 ≤ c ≤ N`, a request with `N - c ≥ align_up(size)` returns the
block that starts at offset `c`, the cursor before the call, and moves the cursor
to offset `c + align_up(size)`.  This holds with `assert` active or compiled out. -/
theorem allocate_success (cfg : PoolCfg) (ndebug : Bool) (st : Pool) (size c : Nat)
    (hf : cfg.Fits) (hc : st.m_ptr = cfg.m_buffer + c) (hcN : c ≤ cfg.N)
    (h : cfg.N - c ≥ align_up cfg.alignment size) :
    allocate cfg ndebug st size
      = (.block (cfg.m_buffer + c),
         { m_ptr := cfg.m_buffer + (c + align_up cfg.alignment size) }) := by
  have hb : InBounds cfg st := ⟨by omega, by omega⟩
  rw [allocate_fits ndebug size hf hb (by omega), hc, Nat.add_assoc]

/-- Witness of C1: capacity 64, alignment 8, cursor at offset 16, request of 20
bytes. -/
theorem allocate_success_witness :
    PoolCfg.Fits ⟨64, 8, 4096⟩ ∧ (4112 : Nat) = 4096 + 16 ∧ 16 ≤ 64 ∧
    64 - 16 ≥ align_up 8 20 ∧
    allocate ⟨64, 8, 4096⟩ false ⟨4112⟩ 20 = (.block (4096 + 16), ⟨4096 + (16 + 24)⟩) :=
  ⟨by decide, rfl, by decide, by decide,
   allocate_success ⟨64, 8, 4096⟩ false ⟨4112⟩ 20 16 (by decide) rfl (by decide)
     (by decide)⟩

/-- C2. Exhaustion case of `Pool::allocate`: in a pool whose cursor is at offset
`c` of the buffer, `0 ≤ c ≤ N`, a request with `N - c < align_up(size)` yields no
block (the failed assertion "Need more space", or `nullptr` when `assert` is
compiled out) and leaves the pool state as it was; and `allocate` yields no block
in no other case. -/
theorem allocate_exhaustion (cfg : PoolCfg) (ndebug : Bool) (st : Pool) (size c : Nat)
    (hf : cfg.Fits) (hc : st.m_ptr = cfg.m_buffer + c) (hcN : c ≤ cfg.N) :
    (cfg.N - c < align_up cfg.alignment size →
      allocate cfg ndebug st size
        = (if ndebug then .null else .assertNeedMoreSpace, st)) ∧
    ((allocate cfg ndebug st size).1.isFailure = true ↔
      cfg.N - c < align_up cfg.alignment size) := by
  have hb : InBounds cfg st := ⟨by omega, by omega⟩
  refine ⟨fun h => allocate_exhausted ndebug size hf hb (by omega), ?_⟩
  by_cases h : cfg.N - c < align_up cfg.alignment size
  · rw [allocate_exhausted ndebug size hf hb (by omega)]
    cases ndebug <;> simp [AllocOutcome.isFailure, h]
  · rw [allocate_fits ndebug size hf hb (by omega)]
    simp [AllocOutcome.isFailure, h]

/-- Witness of C2: capacity 64, alignment 8, cursor at offset 48, request of 20
bytes (24 after rounding) against 16 remaining bytes. -/
theorem allocate_exhaustion_witness :
    PoolCfg.Fits ⟨64, 8, 4096⟩ ∧ (4144 : Nat) = 4096 + 48 ∧ 48 ≤ 64 ∧
    (64 - 48 < align_up 8 20 →
      allocate ⟨64, 8, 4096⟩ true ⟨4144⟩ 20 = (.null, ⟨4144⟩)) ∧
    ((allocate ⟨64, 8, 4096⟩ true ⟨4144⟩ 20).1.isFailure = true ↔
      64 - 48 < align_up 8 20) :=
  ⟨by decide, rfl, by decide,
   allocate_exhaustion ⟨64, 8, 4096⟩ true ⟨4144⟩ 20 48 (by decide) rfl (by decide)⟩

/-- The part of the exhaustion boundary that the code keeps: with capacity 64 and
alignment 8, once the cursor is at offset 64 every request of `1` to `2 ^ 64 - 8`
bytes fails and leaves the cursor at offset 64. -/
theorem full_pool_rejects_in_range (buf : Nat) (ndebug : Bool) (size : Nat)
    (hfit : buf + 64 < SIZE_MOD) (h0 : 0 < size) (h1 : size + 8 ≤ SIZE_MOD) :
    allocate ⟨64, 8, buf⟩ ndebug ⟨buf + 64⟩ size
      = (if ndebug then .null else .assertNeedMoreSpace, ⟨buf + 64⟩) := by
  have hge : size ≤ align_up (2 ^ 3) size := le_align_up (by decide) h1
  have hb : InBounds ⟨64, 8, buf⟩ ⟨buf + 64⟩ := ⟨Nat.le_add_right _ _, Nat.le_refl _⟩
  refine allocate_exhausted ndebug size hfit hb ?_
  show buf + 64 < buf + 64 + align_up 8 size
  have : align_up (2 ^ 3) size = align_up 8 size := rfl
  omega

/-- C3, evaluation at the failing input.  Capacity 64, alignment 8, buffer at
address 4096: the two requests of 32 bytes return offsets 0 and 32 and leave the
cursor at offset 64; a third request of `2 ^ 64 - 1` bytes, whose rounded size
wraps around to 0, is then granted: it returns the block at offset 64 instead of
failing. -/
theorem exhaustion_boundary_size_max : ∀ ndebug : Bool,
    allocate ⟨64, 8, 4096⟩ ndebug (Pool.init ⟨64, 8, 4096⟩) 32
      = (.block 4096, ⟨4096 + 32⟩) ∧
    allocate ⟨64, 8, 4096⟩ ndebug ⟨4096 + 32⟩ 32 = (.block (4096 + 32), ⟨4096 + 64⟩) ∧
    align_up 8 (2 ^ 64 - 1) = 0 ∧
    allocate ⟨64, 8, 4096⟩ ndebug ⟨4096 + 64⟩ (2 ^ 64 - 1)
      = (.block (4096 + 64), ⟨4096 + 64⟩) := by
  intro ndebug
  cases ndebug <;> decide

/-! ## Invariants of reachable states -/

theorem step_alloc_eq {cfg : PoolCfg} {ndebug : Bool} {st st' : Pool} {size : Nat}
    (h : step cfg ndebug st (.alloc size) = some st') :
    (allocate cfg ndebug st size).2 = st' := by
  simp only [step] at h
  split at h
  · exact absurd h (by simp)
  · exact absurd h (by simp)
  · rename_i heq
    rw [heq]
    exact Option.some.inj h

theorem run_preserves {cfg : PoolCfg} {ndebug : Bool} {P : Pool → Prop}
    (hstep : ∀ st op st', P st → step cfg ndebug st op = some st' → P st')
    (ops : List Op) :
    ∀ {st st' : Pool}, P st → run cfg ndebug st ops = some st' → P st' := by
  induction ops with
  | nil =>
    intro st st' hP h
    have : st = st' := by simpa [run] using h
    exact this ▸ hP
  | cons op ops ih =>
    intro st st' hP h
    unfold run at h
    split at h
    · exact absurd h (by simp)
    · rename_i s hs
      exact ih (hstep _ _ _ hP hs) h

theorem allocate_block_eq {cfg : PoolCfg} {ndebug : Bool} {st st' : Pool} {size r : Nat}
    (h : allocate cfg ndebug st size = (.block r, st')) :
    r = st.m_ptr ∧ st' = { m_ptr := wrap (st.m_ptr + align_up cfg.alignment size) } := by
  unfold allocate at h
  by_cases h1 : (!ndebug && !pointer_within_buffer cfg st.m_ptr) = true
  · rw [if_pos h1] at h
    exact absurd h (by simp)
  · rw [if_neg h1] at h
    by_cases h2 : remaining cfg st ≥ align_up cfg.alignment size
    · simp only [h2, if_true, Prod.mk.injEq, AllocOutcome.block.injEq] at h
      exact ⟨h.1.symm, h.2.symm⟩
    · simp only [h2, if_false] at h
      cases ndebug <;> exact absurd h (by simp)

/-- The cursor is in bounds and a multiple of the alignment. -/
theorem step_aligned {cfg : PoolCfg} {ndebug : Bool} {k : Nat} (hk : k < 64)
    (ha : cfg.alignment = 2 ^ k) (hf : cfg.Fits) (st : Pool) (op : Op) (st' : Pool)
    (hP : InBounds cfg st ∧ cfg.alignment ∣ st.m_ptr)
    (h : step cfg ndebug st op = some st') :
    InBounds cfg st' ∧ cfg.alignment ∣ st'.m_ptr := by
  refine ⟨step_inBounds hf hP.1 h, ?_⟩
  obtain ⟨hb, hd⟩ := hP
  cases op with
  | alloc size =>
    have he := step_alloc_eq h
    by_cases hfit : st.m_ptr + align_up cfg.alignment size ≤ cfg.m_buffer + cfg.N
    · rw [allocate_fits ndebug size hf hb hfit] at he
      rw [← he]
      refine Nat.dvd_add hd ?_
      rw [ha]
      exact align_up_dvd hk size
    · rw [allocate_exhausted ndebug size hf hb (by omega)] at he
      rw [← he]
      exact hd
  | dealloc p size =>
    have he : deallocate cfg st p size = st' := by simpa [step] using h
    rw [← he]
    by_cases hp : pointer_within_buffer cfg p = true
    · by_cases hw : wrap (p + align_up cfg.alignment size) = st.m_ptr
      · rw [deallocate_top hp hw]
        have h64 : cfg.alignment ∣ SIZE_MOD := by
          rw [ha]
          exact Nat.pow_dvd_pow 2 (Nat.le_of_lt hk)
        have h1 : cfg.alignment ∣ p + align_up cfg.alignment size := by
          rw [← hw] at hd
          exact (Nat.dvd_mod_iff h64).mp hd
        have h2 : cfg.alignment ∣ align_up cfg.alignment size := by
          rw [ha]
          exact align_up_dvd hk size
        exact (Nat.dvd_add_left h2).mp h1
      · rw [deallocate_noop (fun hh => hw hh.2)]
        exact hd
    · rw [deallocate_noop (fun hh => hp hh.1)]
      exact hd

theorem reachable_aligned {cfg : PoolCfg} {ndebug : Bool} {st : Pool} {k : Nat}
    (hk : k < 64) (ha : cfg.alignment = 2 ^ k) (hf : cfg.Fits)
    (hbuf : cfg.alignment ∣ cfg.m_buffer) (h : Reachable cfg ndebug st) :
    InBounds cfg st ∧ cfg.alignment ∣ st.m_ptr := by
  obtain ⟨ops, hops⟩ := h
  exact run_preserves (step_aligned hk ha hf) ops ⟨init_inBounds cfg, hbuf⟩ hops

/-- C4. Cursor bounds invariant: in every state reachable from a freshly
constructed pool by `allocate` and `deallocate` calls with arbitrary arguments the
cursor satisfies `m_buffer ≤ m_ptr ≤ m_buffer + N`, that is, its offset lies
between 0 and `N`; hence `pointer_within_buffer(m_ptr)` is true and the assertion
at the start of `allocate` does not fail, whatever size is requested. -/
theorem cursor_bounds_invariant (cfg : PoolCfg) (ndebug : Bool) (st : Pool)
    (hf : cfg.Fits) (h : Reachable cfg ndebug st) :
    (cfg.m_buffer ≤ st.m_ptr ∧ st.m_ptr ≤ cfg.m_buffer + cfg.N) ∧
    pointer_within_buffer cfg st.m_ptr = true ∧
    ∀ size : Nat, (allocate cfg ndebug st size).1 ≠ .assertOutside := by
  have hb := reachable_inBounds hf h
  refine ⟨hb, within_of_inBounds hb, fun size => ?_⟩
  by_cases hfit : st.m_ptr + align_up cfg.alignment size ≤ cfg.m_buffer + cfg.N
  · rw [allocate_fits ndebug size hf hb hfit]
    simp
  · rw [allocate_exhausted ndebug size hf hb (by omega)]
    cases ndebug <;> simp

/-- Witness of C4: capacity 64, alignment 8; the state after `allocate(16)`,
`allocate(32)`, `deallocate(B, 32)` in a build with `assert` active. -/
theorem cursor_bounds_invariant_witness :
    PoolCfg.Fits ⟨64, 8, 4096⟩ ∧
    Reachable ⟨64, 8, 4096⟩ false ⟨4112⟩ ∧
    ((4096 ≤ 4112 ∧ 4112 ≤ 4096 + 64) ∧
      pointer_within_buffer ⟨64, 8, 4096⟩ 4112 = true ∧
      ∀ size : Nat, (allocate ⟨64, 8, 4096⟩ false ⟨4112⟩ size).1 ≠ .assertOutside) :=
  ⟨by decide, ⟨[.alloc 16, .alloc 32, .dealloc 4112 32], by decide⟩,
   cursor_bounds_invariant ⟨64, 8, 4096⟩ false ⟨4112⟩ (by decide)
     ⟨[.alloc 16, .alloc 32, .dealloc 4112 32], by decide⟩⟩

/-- C5. Returned pointers are in bounds and aligned: when the alignment is a power
of two and the buffer starts at a multiple of it, every pointer returned by a
successful `allocate` in a state reachable from the fresh pool by `allocate` and
`deallocate` calls is `m_buffer + p` for an offset `p` with `0 ≤ p ≤ N` that is a
multiple of the alignment. -/
theorem returned_pointer_in_bounds_aligned (cfg : PoolCfg) (ndebug : Bool) (st st' : Pool)
    (size r k : Nat) (hk : k < 64) (ha : cfg.alignment = 2 ^ k) (hf : cfg.Fits)
    (hbuf : cfg.alignment ∣ cfg.m_buffer) (hr : Reachable cfg ndebug st)
    (h : allocate cfg ndebug st size = (.block r, st')) :
    ∃ p : Nat, r = cfg.m_buffer + p ∧ p ≤ cfg.N ∧ cfg.alignment ∣ p := by
  obtain ⟨⟨h1, h2⟩, hd⟩ := reachable_aligned hk ha hf hbuf hr
  obtain ⟨hreq, _⟩ := allocate_block_eq h
  refine ⟨st.m_ptr - cfg.m_buffer, by omega, by omega, ?_⟩
  exact (Nat.dvd_sub' hd hbuf)

/-- Witness of C5: capacity 64, alignment `8 = 2 ^ 3`, buffer at address 4096; the
request of 20 bytes made after `allocate(10)` returns offset 16. -/
theorem returned_pointer_in_bounds_aligned_witness :
    3 < 64 ∧ (8 : Nat) = 2 ^ 3 ∧ PoolCfg.Fits ⟨64, 8, 4096⟩ ∧ 8 ∣ 4096 ∧
    Reachable ⟨64, 8, 4096⟩ true ⟨4112⟩ ∧
    allocate ⟨64, 8, 4096⟩ true ⟨4112⟩ 20 = (.block 4112, ⟨4136⟩) ∧
    ∃ p : Nat, 4112 = 4096 + p ∧ p ≤ 64 ∧ 8 ∣ p :=
  ⟨by decide, by decide, by decide, by decide, ⟨[.alloc 10], by decide⟩, by decide,
   returned_pointer_in_bounds_aligned ⟨64, 8, 4096⟩ true ⟨4112⟩ ⟨4136⟩ 20 4112 3
     (by decide) (by decide) (by decide) (by decide) ⟨[.alloc 10], by decide⟩
     (by decide)⟩

/-! ## `Pool::deallocate` -/

theorem allocate_block_fits {cfg : PoolCfg} {ndebug : Bool} {st st' : Pool} {size r : Nat}
    (hf : cfg.Fits) (hb : InBounds cfg st)
    (h : allocate cfg ndebug st size = (.block r, st')) :
    r = st.m_ptr ∧ st' = { m_ptr := st.m_ptr + align_up cfg.alignment size } ∧
    st.m_ptr + align_up cfg.alignment size ≤ cfg.m_buffer + cfg.N := by
  by_cases hfit : st.m_ptr + align_up cfg.alignment size ≤ cfg.m_buffer + cfg.N
  · rw [allocate_fits ndebug size hf hb hfit] at h
    simp only [Prod.mk.injEq, AllocOutcome.block.injEq] at h
    exact ⟨h.1.symm, h.2.symm, hfit⟩
  · rw [allocate_exhausted ndebug size hf hb (by omega)] at h
    cases ndebug <;> exact absurd h (by simp)

/-- C6. Transition of `Pool::deallocate`: if `p` lies within the buffer
(`m_buffer ≤ p ≤ m_buffer + N`) and the pointer `p + align_up(size)`, an address
computed modulo `2 ^ 64`, equals the cursor, the cursor becomes `p`; in every
other case the pool state is unchanged.  The function has no failure result. -/
theorem deallocate_transition (cfg : PoolCfg) (st : Pool) (p size : Nat) :
    ((cfg.m_buffer ≤ p ∧ p ≤ cfg.m_buffer + cfg.N) ∧
        wrap (p + align_up cfg.alignment size) = st.m_ptr →
      (deallocate cfg st p size).m_ptr = p) ∧
    (¬ ((cfg.m_buffer ≤ p ∧ p ≤ cfg.m_buffer + cfg.N) ∧
        wrap (p + align_up cfg.alignment size) = st.m_ptr) →
      deallocate cfg st p size = st) := by
  have hiff : pointer_within_buffer cfg p = true ↔
      (cfg.m_buffer ≤ p ∧ p ≤ cfg.m_buffer + cfg.N) := by
    unfold pointer_within_buffer
    simp only [Bool.and_eq_true, decide_eq_true_eq]
  constructor
  · rintro ⟨hp, hw⟩
    rw [deallocate_top (hiff.mpr hp) hw]
  · intro h
    exact deallocate_noop (fun hh => h ⟨hiff.mp hh.1, hh.2⟩)

/-- Witness of C6: capacity 64, alignment 8, cursor at offset 48; releasing the
32 bytes at offset 16 moves the cursor to offset 16, and releasing the 16 bytes at
offset 0 changes nothing. -/
theorem deallocate_transition_witness :
    (deallocate ⟨64, 8, 4096⟩ ⟨4144⟩ 4112 32).m_ptr = 4112 ∧
    deallocate ⟨64, 8, 4096⟩ ⟨4144⟩ 4096 16 = ⟨4144⟩ :=
  ⟨(deallocate_transition ⟨64, 8, 4096⟩ ⟨4144⟩ 4112 32).1 (by decide),
   (deallocate_transition ⟨64, 8, 4096⟩ ⟨4144⟩ 4096 16).2 (by decide)⟩

/-- C7. LIFO reclaim reuses the address: in every reachable pool state, when
`allocate(s)` succeeds returning `p`, then `deallocate(p, s)` brings the pool back
to the state before that `allocate`, and a following `allocate(s)` succeeds again,
returns the same address `p` and leaves the cursor where the first `allocate`
left it. -/
theorem lifo_reclaim_reuses_address (cfg : PoolCfg) (ndebug : Bool) (st st1 : Pool)
    (s p : Nat) (hf : cfg.Fits) (hr : Reachable cfg ndebug st)
    (h : allocate cfg ndebug st s = (.block p, st1)) :
    deallocate cfg st1 p s = st ∧
    allocate cfg ndebug (deallocate cfg st1 p s) s = (.block p, st1) := by
  have hb := reachable_inBounds hf hr
  obtain ⟨hp, hst1, hfit⟩ := allocate_block_fits hf hb h
  have hd : deallocate cfg st1 p s = st := by
    have hw : wrap (p + align_up cfg.alignment s) = st1.m_ptr := by
      unfold PoolCfg.Fits at hf
      rw [hst1, hp, wrap_of_lt (by omega)]
    rw [deallocate_top (hp ▸ within_of_inBounds hb) hw, hp]
  exact ⟨hd, hd ▸ h⟩

/-- Witness of C7: capacity 64, alignment 8; after `allocate(16)` returned `A`,
`allocate(32)` returns `B` at offset 16; `deallocate(B, 32)` followed by
`allocate(32)` returns `B` again. -/
theorem lifo_reclaim_reuses_address_witness :
    PoolCfg.Fits ⟨64, 8, 4096⟩ ∧ Reachable ⟨64, 8, 4096⟩ false ⟨4112⟩ ∧
    allocate ⟨64, 8, 4096⟩ false ⟨4112⟩ 32 = (.block 4112, ⟨4144⟩) ∧
    deallocate ⟨64, 8, 4096⟩ ⟨4144⟩ 4112 32 = ⟨4112⟩ ∧
    allocate ⟨64, 8, 4096⟩ false (deallocate ⟨64, 8, 4096⟩ ⟨4144⟩ 4112 32) 32
      = (.block 4112, ⟨4144⟩) :=
  ⟨by decide, ⟨[.alloc 16], by decide⟩, by decide,
   lifo_reclaim_reuses_address ⟨64, 8, 4096⟩ false ⟨4112⟩ ⟨4144⟩ 32 4112 (by decide)
     ⟨[.alloc 16], by decide⟩ (by decide)⟩

/-- The part of the out-of-order rule that the code keeps: when the rounded size
of the later block `B` is not zero, `deallocate(A, sA)` leaves the pool state,
whose cursor is `B + align_up(sB)`, unchanged. -/
theorem out_of_order_deallocate_noop (cfg : PoolCfg) (ndebug : Bool) (st st1 st2 : Pool)
    (sA sB A B : Nat) (hf : cfg.Fits) (hb : InBounds cfg st)
    (hA : allocate cfg ndebug st sA = (.block A, st1))
    (hB : allocate cfg ndebug st1 sB = (.block B, st2))
    (hpos : 0 < align_up cfg.alignment sB) :
    st2.m_ptr = B + align_up cfg.alignment sB ∧ deallocate cfg st2 A sA = st2 := by
  obtain ⟨hA1, hA2, hA3⟩ := allocate_block_fits hf hb hA
  have hb1 : InBounds cfg st1 := by
    have := allocate_inBounds ndebug sA hf hb
    rwa [hA] at this
  obtain ⟨hB1, hB2, hB3⟩ := allocate_block_fits hf hb1 hB
  have hc : st2.m_ptr = B + align_up cfg.alignment sB := by rw [hB2, hB1]
  refine ⟨hc, deallocate_noop ?_⟩
  rintro ⟨_, hw⟩
  unfold PoolCfg.Fits at hf
  rw [hc, hB1, hA2, hA1, wrap_of_lt (by rw [hA2] at hB3; simp only at hB3; omega)] at hw
  simp only at hw
  omega

/-- C8, evaluation at the failing input.  Capacity 64, alignment 8, buffer at
address 4096: `allocate(16)` returns `A` at offset 0, `allocate(2 ^ 64 - 1)`, whose
rounded size wraps around to 0, is granted and returns `B` at offset 16 with the
cursor staying at offset 16; `deallocate(A, 16)`, made while `B` is held, then
moves the cursor from `B + align_up(sB)` back to offset 0, and a later
`allocate(32)` returns offset 0, below `B`, and moves the cursor past `B`. -/
theorem out_of_order_deallocate_size_max : ∀ ndebug : Bool,
    allocate ⟨64, 8, 4096⟩ ndebug (Pool.init ⟨64, 8, 4096⟩) 16
      = (.block 4096, ⟨4096 + 16⟩) ∧
    allocate ⟨64, 8, 4096⟩ ndebug ⟨4096 + 16⟩ (2 ^ 64 - 1)
      = (.block (4096 + 16), ⟨4096 + 16⟩) ∧
    (4096 + 16) + align_up 8 (2 ^ 64 - 1) = 4096 + 16 ∧
    deallocate ⟨64, 8, 4096⟩ ⟨4096 + 16⟩ 4096 16 = ⟨4096⟩ ∧
    allocate ⟨64, 8, 4096⟩ ndebug ⟨4096⟩ 32 = (.block 4096, ⟨4096 + 32⟩) := by
  intro ndebug
  cases ndebug <;> decide

/-- C9 as stated fails for a request whose rounded size is zero.  Capacity 64,
alignment 8, fresh pool with cursor `c` at offset 0: `allocate(0)` succeeds
returning `p = c`; after `deallocate(q, 8)` with `q` at offset 8 the cursor is at
`c`, although `q ≠ p`. -/
theorem cursor_returns_iff_counterexample :
    Reachable ⟨64, 8, 4096⟩ false ⟨4096⟩ ∧
    allocate ⟨64, 8, 4096⟩ false ⟨4096⟩ 0 = (.block 4096, ⟨4096⟩) ∧
    ¬ ((deallocate ⟨64, 8, 4096⟩ ⟨4096⟩ 4104 8).m_ptr = 4096 ↔
        (4104 = 4096 ∧ align_up 8 8 = align_up 8 0)) :=
  ⟨⟨[], by decide⟩, by decide, by decide⟩

/-- C9, amended.  Monotonic cursor, exact condition: for every reachable pool
state with cursor `c`, every size `s` with `align_up(s) ≠ 0` for which
`allocate(s)` succeeds returning `p`, and every following `deallocate(q, t)` with
arbitrary `q` and `t`, the cursor after the `deallocate` is back at `c` if and
only if `q = p` and `align_up(t) = align_up(s)`. -/
theorem cursor_returns_iff (cfg : PoolCfg) (ndebug : Bool) (st st1 : Pool)
    (s p q t : Nat) (hf : cfg.Fits) (hr : Reachable cfg ndebug st)
    (hs : align_up cfg.alignment s ≠ 0)
    (h : allocate cfg ndebug st s = (.block p, st1)) :
    (deallocate cfg st1 q t).m_ptr = st.m_ptr ↔
      (q = p ∧ align_up cfg.alignment t = align_up cfg.alignment s) := by
  have hb := reachable_inBounds hf hr
  obtain ⟨hp, hst1, hfit⟩ := allocate_block_fits hf hb h
  have ht := align_up_lt cfg.alignment t
  unfold PoolCfg.Fits at hf
  constructor
  · intro hback
    by_cases hc : pointer_within_buffer cfg q = true ∧
        wrap (q + align_up cfg.alignment t) = st1.m_ptr
    · rw [deallocate_top hc.1 hc.2] at hback
      simp only at hback
      refine ⟨by rw [hback, hp], ?_⟩
      have hw : (st.m_ptr + align_up cfg.alignment t) % 2 ^ 64
          = st.m_ptr + align_up cfg.alignment s := by
        have hw := hc.2
        rw [hst1, hback] at hw
        exact hw
      have hf64 : cfg.m_buffer + cfg.N < 2 ^ 64 := hf
      have ht64 : align_up cfg.alignment t < 2 ^ 64 := ht
      clear hc hf ht
      omega
    · rw [deallocate_noop hc, hst1] at hback
      simp only at hback
      omega
  · rintro ⟨hq, hta⟩
    have hw : wrap (q + align_up cfg.alignment t) = st1.m_ptr := by
      rw [hst1, hq, hp, hta, wrap_of_lt (by omega)]
    rw [deallocate_top (by rw [hq, hp]; exact within_of_inBounds hb) hw, hq, hp]

/-- Witness of C9 amended: capacity 64, alignment 8; in the state after
`allocate(16)` (cursor at offset 16) `allocate(32)` returns offset 16, and
`deallocate` of that block with size 25, which rounds to 32 as well, is judged. -/
theorem cursor_returns_iff_witness :
    PoolCfg.Fits ⟨64, 8, 4096⟩ ∧ Reachable ⟨64, 8, 4096⟩ false ⟨4112⟩ ∧
    align_up 8 32 ≠ 0 ∧
    allocate ⟨64, 8, 4096⟩ false ⟨4112⟩ 32 = (.block 4112, ⟨4144⟩) ∧
    ((deallocate ⟨64, 8, 4096⟩ ⟨4144⟩ 4112 25).m_ptr = 4112 ↔
      (4112 = 4112 ∧ align_up 8 25 = align_up 8 32)) :=
  ⟨by decide, ⟨[.alloc 16], by decide⟩, by decide, by decide,
   cursor_returns_iff ⟨64, 8, 4096⟩ false ⟨4112⟩ ⟨4144⟩ 32 4112 4112 25 (by decide)
     ⟨[.alloc 16], by decide⟩ (by decide) (by decide)⟩

/-- C10 as stated fails: `deallocate` compares `p + align_up(size)` with the
cursor and keeps no record of the blocks it handed out.  Capacity 64, alignment
8, buffer at address 4096.  After `allocate(16)` and `allocate(32)` the client
holds the blocks at offsets 0 and 16 and the cursor is at offset 48; the pair
(offset 24, size 24) is an interior pointer that `allocate` never returned, yet
`deallocate` moves the cursor to offset 24.  After `allocate(16)`,
`deallocate(A, 16)`, `allocate(8)`, `allocate(8)` the block `(A, 16)` is already
released, yet a second `deallocate(A, 16)` moves the cursor from offset 16 to
offset 0. -/
theorem misuse_noop_counterexample :
    (runLive ⟨64, 8, 4096⟩ false (Pool.init ⟨64, 8, 4096⟩, []) [.alloc 16, .alloc 32]
        = some (⟨4144⟩, [(4112, 32), (4096, 16)]) ∧
      (4120, 24) ∉ [((4112, 32) : Block), (4096, 16)] ∧
      (deallocate ⟨64, 8, 4096⟩ ⟨4144⟩ 4120 24).m_ptr = 4120 ∧
      (deallocate ⟨64, 8, 4096⟩ ⟨4144⟩ 4120 24).m_ptr ≠ (⟨4144⟩ : Pool).m_ptr) ∧
    (runLive ⟨64, 8, 4096⟩ false (Pool.init ⟨64, 8, 4096⟩, [])
        [.alloc 16, .dealloc 4096 16, .alloc 8, .alloc 8]
        = some (⟨4112⟩, [(4104, 8), (4096, 8)]) ∧
      (4096, 16) ∉ [((4104, 8) : Block), (4096, 8)] ∧
      (deallocate ⟨64, 8, 4096⟩ ⟨4112⟩ 4096 16).m_ptr = 4096 ∧
      (deallocate ⟨64, 8, 4096⟩ ⟨4112⟩ 4096 16).m_ptr ≠ (⟨4112⟩ : Pool).m_ptr) := by
  decide

/-- C10, amended.  Misuse is a silent no-op as far as the cursor test goes: in
every pool state, reachable or not, a `deallocate(p, size)` whose pointer `p` is
out of bounds, or for which `p + align_up(size)` is not the cursor, leaves the
pool state, and so the cursor, unchanged. -/
theorem misuse_noop (cfg : PoolCfg) (st : Pool) (p size : Nat)
    (h : ¬ (cfg.m_buffer ≤ p ∧ p ≤ cfg.m_buffer + cfg.N) ∨
      wrap (p + align_up cfg.alignment size) ≠ st.m_ptr) :
    deallocate cfg st p size = st := by
  refine deallocate_noop ?_
  rintro ⟨hp, hw⟩
  unfold pointer_within_buffer at hp
  simp only [Bool.and_eq_true, decide_eq_true_eq] at hp
  rcases h with h | h
  · exact h hp
  · exact h hw

/-- Witness of C10 amended: capacity 64, alignment 8, buffer at address 4096,
cursor at offset 48; a pointer 48 bytes below the buffer with size 96, which ends
at the cursor, and the interior pointer at offset 24 with size 16, which ends at
offset 40. -/
theorem misuse_noop_witness :
    (¬ (4096 ≤ 4048 ∧ 4048 ≤ 4096 + 64) ∨ wrap (4048 + align_up 8 96) ≠ 4144) ∧
    deallocate ⟨64, 8, 4096⟩ ⟨4144⟩ 4048 96 = ⟨4144⟩ ∧
    (¬ (4096 ≤ 4120 ∧ 4120 ≤ 4096 + 64) ∨ wrap (4120 + align_up 8 16) ≠ 4144) ∧
    deallocate ⟨64, 8, 4096⟩ ⟨4144⟩ 4120 16 = ⟨4144⟩ :=
  ⟨by decide,
   misuse_noop ⟨64, 8, 4096⟩ ⟨4144⟩ 4048 96 (by decide),
   by decide,
   misuse_noop ⟨64, 8, 4096⟩ ⟨4144⟩ 4120 16 (by decide)⟩

/-! ## `Pool::align_up` against rounding up over the natural numbers -/

theorem spec_next_multiple_spec {a : Nat} (ha : 0 < a) (x : Nat) :
    x ≤ spec_next_multiple a x ∧ spec_next_multiple a x < x + a ∧
    a ∣ spec_next_multiple a x ∧
    ∀ m : Nat, a ∣ m → x ≤ m → spec_next_multiple a x ≤ m := by
  unfold spec_next_multiple
  have h1 := Nat.div_add_mod (x + (a - 1)) a
  have h2 := Nat.mod_lt (x + (a - 1)) ha
  have h3 : (x + (a - 1)) / a * a = a * ((x + (a - 1)) / a) := Nat.mul_comm _ _
  refine ⟨by omega, by omega, Dvd.intro_left _ rfl, ?_⟩
  rintro m ⟨c, rfl⟩ hx
  rw [Nat.mul_comm a c]
  refine Nat.mul_le_mul_right a ?_
  have hlt : x + (a - 1) < (c + 1) * a := by
    rw [Nat.add_mul, Nat.one_mul, Nat.mul_comm c a]
    omega
  exact Nat.lt_succ_iff.mp ((Nat.div_lt_iff_lt_mul ha).mpr hlt)

/-- As long as `n + (alignment-1)` does not exceed the range of `size_t`,
`align_up` is rounding up to the next multiple of a power-of-two alignment. -/
theorem align_up_eq_spec {k : Nat} (hk : k < 64) {n : Nat} (hn : n + 2 ^ k ≤ SIZE_MOD) :
    align_up (2 ^ k) n = spec_next_multiple (2 ^ k) n := by
  have hpos : 0 < 2 ^ k := Nat.two_pow_pos k
  rw [align_up_pow2 hk, wrap_of_lt (by omega)]
  unfold spec_next_multiple
  have h1 := Nat.div_add_mod (n + (2 ^ k - 1)) (2 ^ k)
  have h3 : (n + (2 ^ k - 1)) / 2 ^ k * 2 ^ k = 2 ^ k * ((n + (2 ^ k - 1)) / 2 ^ k) :=
    Nat.mul_comm _ _
  omega

/-- Once `n + (alignment-1)` exceeds the range of `size_t`, `align_up` is zero. -/
theorem align_up_wraps {k : Nat} (hk : k < 64) {n : Nat} (hn : n < SIZE_MOD)
    (hov : SIZE_MOD < n + 2 ^ k) : align_up (2 ^ k) n = 0 := by
  have hlt := two_pow_lt_size hk
  have hw : wrap (n + (2 ^ k - 1)) = n + (2 ^ k - 1) - SIZE_MOD := by
    unfold wrap
    have : n + (2 ^ k - 1) = (n + (2 ^ k - 1) - SIZE_MOD) + SIZE_MOD := by omega
    rw [this, Nat.add_mod_right, ← this]
    exact Nat.mod_eq_of_lt (by omega)
  rw [align_up_pow2 hk, hw, Nat.mod_eq_of_lt (by omega)]
  exact Nat.sub_self _

/-- C13, evaluation at failing inputs.  For alignment 8 and `n = 2 ^ 64 - 1` the
`size_t` sum `n + 7` wraps around to 6 and `align_up(n)` is 0, which is below `n`,
while the least multiple of 8 at or above `n` is `2 ^ 64`; likewise for alignment
16 and `n = 2 ^ 64 - 15`, and for alignment 2 and `n = 2 ^ 64 - 1`. -/
theorem align_up_size_max :
    align_up 8 (2 ^ 64 - 1) = 0 ∧ ¬ (2 ^ 64 - 1 ≤ align_up 8 (2 ^ 64 - 1)) ∧
    spec_next_multiple 8 (2 ^ 64 - 1) = 2 ^ 64 ∧
    align_up 16 (2 ^ 64 - 15) = 0 ∧ align_up 2 (2 ^ 64 - 1) = 0 := by
  decide

/-! ## Room of a granted block -/

/-- The part of the room guarantee that the code keeps: for a power-of-two
alignment and a size with `size + alignment ≤ 2 ^ 64`, a granted block lies with
its whole requested range inside the buffer. -/
theorem granted_block_has_room (cfg : PoolCfg) (ndebug : Bool) (st st' : Pool)
    (size r k : Nat) (hk : k < 64) (ha : cfg.alignment = 2 ^ k) (hf : cfg.Fits)
    (hb : InBounds cfg st) (hn : size + 2 ^ k ≤ SIZE_MOD)
    (h : allocate cfg ndebug st size = (.block r, st')) :
    cfg.m_buffer ≤ r ∧ r + size ≤ cfg.m_buffer + cfg.N := by
  obtain ⟨hr, _, hfit⟩ := allocate_block_fits hf hb h
  have hle : size ≤ align_up cfg.alignment size := by
    rw [ha]
    exact le_align_up hk hn
  obtain ⟨h1, _⟩ := hb
  exact ⟨by omega, by omega⟩

/-- C14, evaluation at failing inputs.  Capacity 64, alignment 8, buffer at
address 4096, fresh pool.  `Pool::allocate(2 ^ 64 - 1)` is granted at offset 0
although `0 + (2 ^ 64 - 1)` exceeds 64.  `MyAllocator<T>::allocate(2 ^ 62)` for an
element type with `sizeof(T) = 4` passes the `size_t` product `2 ^ 62 * 4`, which
is 0, and is granted at offset 0 although `0 + 2 ^ 62 * 4` exceeds 64. -/
theorem granted_block_size_max : ∀ ndebug : Bool,
    Reachable ⟨64, 8, 4096⟩ ndebug (Pool.init ⟨64, 8, 4096⟩) ∧
    allocate ⟨64, 8, 4096⟩ ndebug (Pool.init ⟨64, 8, 4096⟩) (2 ^ 64 - 1)
      = (.block (4096 + 0), ⟨4096⟩) ∧
    ¬ (0 + (2 ^ 64 - 1) ≤ 64) ∧
    wrap (2 ^ 62 * 4) = 0 ∧
    (MyAllocator.allocate (MyAllocator.ofPool 4 64 8 4096) ndebug Store.fresh
      (2 ^ 62)).1 = .block (4096 + 0) ∧
    ¬ (0 + 2 ^ 62 * 4 ≤ 64) := by
  intro ndebug
  refine ⟨⟨[], rfl⟩, ?_⟩
  cases ndebug <;> decide

/-! ## Release in reverse order -/

theorem deallocate_after_allocate {cfg : PoolCfg} {ndebug : Bool} {st st1 : Pool}
    {s p : Nat} (hf : cfg.Fits) (hb : InBounds cfg st)
    (h : allocate cfg ndebug st s = (.block p, st1)) :
    deallocate cfg st1 p s = st := by
  obtain ⟨hp, hst1, hfit⟩ := allocate_block_fits hf hb h
  have hw : wrap (p + align_up cfg.alignment s) = st1.m_ptr := by
    unfold PoolCfg.Fits at hf
    rw [hst1, hp, wrap_of_lt (by omega)]
  rw [deallocate_top (hp ▸ within_of_inBounds hb) hw, hp]

theorem deallocateAll_append (cfg : PoolCfg) (bs cs : List Block) :
    ∀ st : Pool, deallocateAll cfg st (bs ++ cs)
      = deallocateAll cfg (deallocateAll cfg st bs) cs := by
  induction bs with
  | nil => intro st; rfl
  | cons b bs ih =>
    intro st
    simp only [List.cons_append, deallocateAll]
    exact ih _

theorem allocateAll_cons {cfg : PoolCfg} {ndebug : Bool} {st st2 : Pool} {s : Nat}
    {ss : List Nat} {bs : List Block}
    (h : allocateAll cfg ndebug st (s :: ss) = some (bs, st2)) :
    ∃ p st1 bs', allocate cfg ndebug st s = (.block p, st1) ∧
      allocateAll cfg ndebug st1 ss = some (bs', st2) ∧ bs = (p, s) :: bs' := by
  unfold allocateAll at h
  split at h
  · rename_i p st1 heq
    split at h
    · rename_i bs' st2' heq2
      simp only [Option.some.injEq, Prod.mk.injEq] at h
      exact ⟨p, st1, bs', heq, by rw [heq2, h.2], h.1.symm⟩
    · exact absurd h (by simp)
  · exact absurd h (by simp)

theorem reverse_release_aux (cfg : PoolCfg) (ndebug : Bool) (hf : cfg.Fits)
    (sizes : List Nat) :
    ∀ (st st2 : Pool) (bs : List Block), InBounds cfg st →
      allocateAll cfg ndebug st sizes = some (bs, st2) →
      deallocateAll cfg st2 bs.reverse = st := by
  induction sizes with
  | nil =>
    intro st st2 bs _ h
    simp only [allocateAll, Option.some.injEq, Prod.mk.injEq] at h
    rw [← h.1, ← h.2]
    rfl
  | cons s ss ih =>
    intro st st2 bs hb h
    obtain ⟨p, st1, bs', h1, h2, hbs⟩ := allocateAll_cons h
    have hb1 : InBounds cfg st1 := by
      have := allocate_inBounds ndebug s hf hb
      rwa [h1] at this
    rw [hbs, List.reverse_cons, deallocateAll_append, ih st1 st2 bs' hb1 h2]
    simp only [deallocateAll]
    exact deallocate_after_allocate hf hb h1

/-- C16. Reverse-order release restores the pool: for every reachable pool state
and every finite list of sizes `s_1 .. s_k` whose allocations all succeed in
order, returning `p_1 .. p_k`, the calls `deallocate(p_k, s_k)`, ...,
`deallocate(p_1, s_1)` bring the pool back to the state it started from, so the
cursor is back at exactly its starting value. -/
theorem release_in_reverse_restores (cfg : PoolCfg) (ndebug : Bool) (st st2 : Pool)
    (sizes : List Nat) (bs : List Block) (hf : cfg.Fits)
    (hr : Reachable cfg ndebug st)
    (h : allocateAll cfg ndebug st sizes = some (bs, st2)) :
    deallocateAll cfg st2 bs.reverse = st ∧
    (deallocateAll cfg st2 bs.reverse).m_ptr = st.m_ptr := by
  have := reverse_release_aux cfg ndebug hf sizes st st2 bs
    (reachable_inBounds hf hr) h
  exact ⟨this, by rw [this]⟩

/-- Witness of C16: capacity 64, alignment 8; from the state after `allocate(16)`
the sizes 3, 0 and 17 are granted at offsets 16, 24 and 24 and released in
reverse order. -/
theorem release_in_reverse_restores_witness :
    PoolCfg.Fits ⟨64, 8, 4096⟩ ∧ Reachable ⟨64, 8, 4096⟩ false ⟨4112⟩ ∧
    allocateAll ⟨64, 8, 4096⟩ false ⟨4112⟩ [3, 0, 17]
      = some ([(4112, 3), (4120, 0), (4120, 17)], ⟨4144⟩) ∧
    deallocateAll ⟨64, 8, 4096⟩ ⟨4144⟩ [(4120, 17), (4120, 0), (4112, 3)] = ⟨4112⟩ ∧
    (deallocateAll ⟨64, 8, 4096⟩ ⟨4144⟩ [(4120, 17), (4120, 0), (4112, 3)]).m_ptr
      = 4112 :=
  ⟨by decide, ⟨[.alloc 16], by decide⟩, by decide,
   release_in_reverse_restores ⟨64, 8, 4096⟩ false ⟨4112⟩ ⟨4144⟩ [3, 0, 17]
     [(4112, 3), (4120, 0), (4120, 17)] (by decide) ⟨[.alloc 16], by decide⟩
     (by decide)⟩

/-! ## Direction of the cursor in `deallocate` -/

/-- C17 as stated fails when the pointer addition `p + size` in `deallocate`
passes the end of the address space.  Capacity 64, alignment 8, buffer at address
4096, cursor at offset 0: for `p` at offset 8 and `size = 2 ^ 64 - 8`, which
`align_up` leaves as it is, `p + size` is the address 4096 modulo `2 ^ 64`, equal
to the cursor, and `deallocate` moves the cursor forward to offset 8. -/
theorem deallocate_never_advances_counterexample :
    InBounds ⟨64, 8, 4096⟩ ⟨4096⟩ ∧
    align_up 8 (2 ^ 64 - 8) = 2 ^ 64 - 8 ∧
    wrap (4104 + align_up 8 (2 ^ 64 - 8)) = 4096 ∧
    deallocate ⟨64, 8, 4096⟩ ⟨4096⟩ 4104 (2 ^ 64 - 8) = ⟨4104⟩ ∧
    ¬ ((deallocate ⟨64, 8, 4096⟩ ⟨4096⟩ 4104 (2 ^ 64 - 8)).m_ptr
        ≤ (⟨4096⟩ : Pool).m_ptr) := by
  decide

/-- C17, amended.  `deallocate` never advances the cursor as long as the pointer
addition stays inside the address space: for every pool state, in particular
every one with `0 ≤ cursor ≤ N`, and every pointer `p` and size with
`p + align_up(size) < 2 ^ 64`, the cursor after `deallocate(p, size)` is less than
or equal to the cursor before it. -/
theorem deallocate_never_advances (cfg : PoolCfg) (st : Pool) (p size : Nat)
    (h : p + align_up cfg.alignment size < SIZE_MOD) :
    (deallocate cfg st p size).m_ptr ≤ st.m_ptr := by
  by_cases hc : pointer_within_buffer cfg p = true ∧
      wrap (p + align_up cfg.alignment size) = st.m_ptr
  · rw [deallocate_top hc.1 hc.2]
    have hw := hc.2
    rw [wrap_of_lt h] at hw
    show p ≤ st.m_ptr
    omega
  · rw [deallocate_noop hc]

/-- Witness of C17 amended: capacity 64, alignment 8, cursor at offset 48; the
never-allocated interior pointer at offset 24 with size 24 retracts the cursor to
offset 24. -/
theorem deallocate_never_advances_witness :
    4120 + align_up 8 24 < SIZE_MOD ∧
    (deallocate ⟨64, 8, 4096⟩ ⟨4144⟩ 4120 24).m_ptr ≤ (⟨4144⟩ : Pool).m_ptr :=
  ⟨by decide, deallocate_never_advances ⟨64, 8, 4096⟩ ⟨4144⟩ 4120 24 (by decide)⟩

/-! ## Rounding at the tail of the buffer -/

theorem multiple_add_le {k m : Nat} (hk : k < 64) (hd : 2 ^ k ∣ m) (hm : m < SIZE_MOD) :
    m + 2 ^ k ≤ SIZE_MOD := by
  obtain ⟨q, rfl⟩ := hd
  have hpos : 0 < 2 ^ k := Nat.two_pow_pos k
  have h64 : SIZE_MOD = 2 ^ k * 2 ^ (64 - k) := by
    rw [← pow_add, Nat.add_sub_cancel' (Nat.le_of_lt hk)]
  rw [h64] at hm ⊢
  have hq : q < 2 ^ (64 - k) := Nat.lt_of_mul_lt_mul_left hm
  calc 2 ^ k * q + 2 ^ k = 2 ^ k * (q + 1) := by rw [Nat.mul_add, Nat.mul_one]
    _ ≤ 2 ^ k * 2 ^ (64 - k) := Nat.mul_le_mul_left _ hq

/-- The cursor is in bounds and its offset is a multiple of the alignment. -/
theorem step_offset_aligned {cfg : PoolCfg} {ndebug : Bool} {k : Nat} (hk : k < 64)
    (ha : cfg.alignment = 2 ^ k) (hf : cfg.Fits) (st : Pool) (op : Op) (st' : Pool)
    (hP : InBounds cfg st ∧ cfg.alignment ∣ st.m_ptr - cfg.m_buffer)
    (h : step cfg ndebug st op = some st') :
    InBounds cfg st' ∧ cfg.alignment ∣ st'.m_ptr - cfg.m_buffer := by
  refine ⟨step_inBounds hf hP.1 h, ?_⟩
  obtain ⟨hb, hd⟩ := hP
  have h2 : ∀ size : Nat, cfg.alignment ∣ align_up cfg.alignment size := by
    intro size
    rw [ha]
    exact align_up_dvd hk size
  cases op with
  | alloc size =>
    have he := step_alloc_eq h
    by_cases hfit : st.m_ptr + align_up cfg.alignment size ≤ cfg.m_buffer + cfg.N
    · rw [allocate_fits ndebug size hf hb hfit] at he
      rw [← he]
      have : st.m_ptr + align_up cfg.alignment size - cfg.m_buffer
          = (st.m_ptr - cfg.m_buffer) + align_up cfg.alignment size := by
        have := hb.1
        omega
      show cfg.alignment ∣ st.m_ptr + align_up cfg.alignment size - cfg.m_buffer
      rw [this]
      exact Nat.dvd_add hd (h2 size)
    · rw [allocate_exhausted ndebug size hf hb (by omega)] at he
      rw [← he]
      exact hd
  | dealloc p size =>
    have he : deallocate cfg st p size = st' := by simpa [step] using h
    rw [← he]
    by_cases hp : pointer_within_buffer cfg p = true
    · by_cases hw : wrap (p + align_up cfg.alignment size) = st.m_ptr
      · rw [deallocate_top hp hw]
        show cfg.alignment ∣ p - cfg.m_buffer
        have h64 : cfg.alignment ∣ 2 ^ 64 := by
          rw [ha]
          exact Nat.pow_dvd_pow 2 (Nat.le_of_lt hk)
        have hpb : cfg.m_buffer ≤ p ∧ p ≤ cfg.m_buffer + cfg.N := by
          unfold pointer_within_buffer at hp
          simpa only [Bool.and_eq_true, decide_eq_true_eq] using hp
        have hlt : align_up cfg.alignment size < 2 ^ 64 := align_up_lt _ _
        have hf64 : cfg.m_buffer + cfg.N < 2 ^ 64 := hf
        have hw64 : (p + align_up cfg.alignment size) % 2 ^ 64 = st.m_ptr := hw
        have hb1 := hb.1
        have hcase : (p - cfg.m_buffer) + align_up cfg.alignment size
              = st.m_ptr - cfg.m_buffer ∨
            (p - cfg.m_buffer) + align_up cfg.alignment size
              = (st.m_ptr - cfg.m_buffer) + 2 ^ 64 := by
          omega
        rcases hcase with hc | hc
        · have : cfg.alignment ∣ (p - cfg.m_buffer) + align_up cfg.alignment size :=
            hc ▸ hd
          exact (Nat.dvd_add_left (h2 size)).mp this
        · have : cfg.alignment ∣ (p - cfg.m_buffer) + align_up cfg.alignment size :=
            hc ▸ Nat.dvd_add hd h64
          exact (Nat.dvd_add_left (h2 size)).mp this
      · rw [deallocate_noop (fun hh => hw hh.2)]
        exact hd
    · rw [deallocate_noop (fun hh => hp hh.1)]
      exact hd

theorem reachable_offset_aligned {cfg : PoolCfg} {ndebug : Bool} {st : Pool} {k : Nat}
    (hk : k < 64) (ha : cfg.alignment = 2 ^ k) (hf : cfg.Fits)
    (h : Reachable cfg ndebug st) :
    InBounds cfg st ∧ cfg.alignment ∣ st.m_ptr - cfg.m_buffer := by
  obtain ⟨ops, hops⟩ := h
  refine run_preserves (step_offset_aligned hk ha hf) ops ⟨init_inBounds cfg, ?_⟩ hops
  show cfg.alignment ∣ cfg.m_buffer - cfg.m_buffer
  rw [Nat.sub_self]
  exact Nat.dvd_zero _

/-- C18. No capacity is lost to rounding at the tail: when the alignment is a
power of two and `N` is a multiple of it, then in every state reachable from a
fresh pool and for every size with `size ≤ N`, `allocate(size)` returns a block
if and only if `size ≤ N - cursor`, the unrounded size against the remaining
bytes (`cursor` being the offset of `m_ptr` in the buffer). -/
theorem no_capacity_lost_to_rounding (cfg : PoolCfg) (ndebug : Bool) (st : Pool)
    (size k : Nat) (hk : k < 64) (ha : cfg.alignment = 2 ^ k)
    (hN : cfg.alignment ∣ cfg.N) (hf : cfg.Fits) (hr : Reachable cfg ndebug st)
    (hs : size ≤ cfg.N) :
    (allocate cfg ndebug st size).1.isFailure = false ↔
      size ≤ cfg.N - (st.m_ptr - cfg.m_buffer) := by
  obtain ⟨hb, hd⟩ := reachable_offset_aligned hk ha hf hr
  have hf64 : cfg.m_buffer + cfg.N < SIZE_MOD := hf
  have hNk : cfg.N + 2 ^ k ≤ SIZE_MOD := multiple_add_le hk (ha ▸ hN) (by omega)
  have hspec := spec_next_multiple_spec (Nat.two_pow_pos k) size
  rw [← align_up_eq_spec hk (by omega), ← ha] at hspec
  obtain ⟨hle, _, _, hleast⟩ := hspec
  have hrest : cfg.alignment ∣ cfg.N - (st.m_ptr - cfg.m_buffer) := Nat.dvd_sub' hN hd
  obtain ⟨hb1, hb2⟩ := hb
  by_cases hfit : st.m_ptr + align_up cfg.alignment size ≤ cfg.m_buffer + cfg.N
  · rw [allocate_fits ndebug size hf ⟨hb1, hb2⟩ hfit]
    simp only [AllocOutcome.isFailure, true_iff]
    omega
  · rw [allocate_exhausted ndebug size hf ⟨hb1, hb2⟩ (by omega)]
    have hno : ¬ size ≤ cfg.N - (st.m_ptr - cfg.m_buffer) := by
      intro hle2
      have := hleast _ hrest hle2
      omega
    cases ndebug <;> simp [AllocOutcome.isFailure, hno]

/-- Witness of C18: capacity 64, alignment `8 = 2 ^ 3`; in the state after
`allocate(48)`, with 16 bytes left, `allocate(10)` is judged. -/
theorem no_capacity_lost_to_rounding_witness :
    3 < 64 ∧ (8 : Nat) = 2 ^ 3 ∧ 8 ∣ 64 ∧ PoolCfg.Fits ⟨64, 8, 4096⟩ ∧
    Reachable ⟨64, 8, 4096⟩ false ⟨4144⟩ ∧ 10 ≤ 64 ∧
    ((allocate ⟨64, 8, 4096⟩ false ⟨4144⟩ 10).1.isFailure = false ↔
      10 ≤ 64 - (4144 - 4096)) :=
  ⟨by decide, by decide, by decide, by decide, ⟨[.alloc 48], by decide⟩, by decide,
   no_capacity_lost_to_rounding ⟨64, 8, 4096⟩ false ⟨4144⟩ 10 3 (by decide) (by decide)
     (by decide) (by decide) ⟨[.alloc 48], by decide⟩ (by decide)⟩

/-! ## `MyAllocator` -/

theorem align_up_eq_spec_of_le {k : Nat} (hk : k < 64) {x N : Nat} (hN : N < SIZE_MOD)
    (h : spec_next_multiple (2 ^ k) x ≤ N) :
    x < SIZE_MOD ∧ align_up (2 ^ k) x = spec_next_multiple (2 ^ k) x := by
  obtain ⟨h1, _, h3, _⟩ := spec_next_multiple_spec (Nat.two_pow_pos k) x
  have := multiple_add_le hk h3 (by omega)
  exact ⟨by omega, align_up_eq_spec hk (by omega)⟩

/-- C11. Rebind preserves aliasing: let the alignment be a power of two and let a
fresh pool be large enough for 3 elements of size `sizeof(T)` and 2 elements of
size `sizeof(U)`, each block rounded up to the alignment.  Allocating 3 elements
through `MyAllocator<T>` and then 2 elements through the `MyAllocator<U>`
constructed from it draws from the same pool: the first block starts at offset 0,
the second at offset `align_up(3*sizeof(T))`, the cursor of the pool ends at
offset `align_up(3*sizeof(T)) + align_up(2*sizeof(U))`, and the byte ranges
`[0, 3*sizeof(T))` and `[second, second + 2*sizeof(U))` do not overlap, the first
ending at or before the start of the second. -/
theorem rebind_preserves_aliasing (sizeofT sizeofU N Align pool k : Nat) (ndebug : Bool)
    (hk : k < 64) (hA : Align = 2 ^ k) (hfit : pool + N < SIZE_MOD)
    (hroom : spec_next_multiple Align (3 * sizeofT)
      + spec_next_multiple Align (2 * sizeofU) ≤ N) :
    (MyAllocator.rebind sizeofU (MyAllocator.ofPool sizeofT N Align pool)).m_pool
      = (MyAllocator.ofPool sizeofT N Align pool).m_pool ∧
    ((MyAllocator.ofPool sizeofT N Align pool).allocate ndebug Store.fresh 3).1
      = .block (pool + 0) ∧
    ((MyAllocator.rebind sizeofU (MyAllocator.ofPool sizeofT N Align pool)).allocate
        ndebug
        ((MyAllocator.ofPool sizeofT N Align pool).allocate ndebug Store.fresh 3).2 2).1
      = .block (pool + align_up Align (3 * sizeofT)) ∧
    (((MyAllocator.rebind sizeofU (MyAllocator.ofPool sizeofT N Align pool)).allocate
        ndebug
        ((MyAllocator.ofPool sizeofT N Align pool).allocate ndebug Store.fresh 3).2 2).2
        pool).m_ptr
      = pool + (align_up Align (3 * sizeofT) + align_up Align (2 * sizeofU)) ∧
    0 + 3 * sizeofT ≤ align_up Align (3 * sizeofT) ∧
    Block.disjoint (pool + 0, 3 * sizeofT)
      (pool + align_up Align (3 * sizeofT), 2 * sizeofU) := by
  subst hA
  have hN : N < SIZE_MOD := by omega
  obtain ⟨hT, eT⟩ := align_up_eq_spec_of_le (x := 3 * sizeofT) hk hN (by omega)
  obtain ⟨hU, eU⟩ := align_up_eq_spec_of_le (x := 2 * sizeofU) hk hN (by omega)
  obtain ⟨hleT, _, _, _⟩ := spec_next_multiple_spec (Nat.two_pow_pos k) (3 * sizeofT)
  rw [← eT, ← eU] at hroom
  rw [← eT] at hleT
  have hcfg : PoolCfg.Fits ⟨N, 2 ^ k, pool⟩ := hfit
  have hb0 : InBounds ⟨N, 2 ^ k, pool⟩ ⟨pool⟩ := ⟨Nat.le_refl _, Nat.le_add_right _ _⟩
  have e1 : allocate ⟨N, 2 ^ k, pool⟩ ndebug ⟨pool⟩ (3 * sizeofT)
      = (.block pool, ⟨pool + align_up (2 ^ k) (3 * sizeofT)⟩) :=
    allocate_fits ndebug (3 * sizeofT) hcfg hb0
      (by show pool + align_up (2 ^ k) (3 * sizeofT) ≤ pool + N; omega)
  have hb1 : InBounds ⟨N, 2 ^ k, pool⟩ ⟨pool + align_up (2 ^ k) (3 * sizeofT)⟩ :=
    ⟨Nat.le_add_right _ _,
     by show pool + align_up (2 ^ k) (3 * sizeofT) ≤ pool + N; omega⟩
  have e2 : allocate ⟨N, 2 ^ k, pool⟩ ndebug ⟨pool + align_up (2 ^ k) (3 * sizeofT)⟩
        (2 * sizeofU)
      = (.block (pool + align_up (2 ^ k) (3 * sizeofT)),
         ⟨pool + align_up (2 ^ k) (3 * sizeofT) + align_up (2 ^ k) (2 * sizeofU)⟩) :=
    allocate_fits ndebug (2 * sizeofU) hcfg hb1
      (by
        show pool + align_up (2 ^ k) (3 * sizeofT) + align_up (2 ^ k) (2 * sizeofU)
          ≤ pool + N
        omega)
  simp only [MyAllocator.allocate, MyAllocator.rebind, MyAllocator.ofPool,
    MyAllocator.pool_cfg, Store.fresh, Function.update_same, wrap_of_lt hT,
    wrap_of_lt hU, e1, e2, Nat.add_zero, Nat.zero_add, Nat.add_assoc, true_and]
  refine ⟨hleT, ?_⟩
  right; right; left
  show pool + 3 * sizeofT ≤ pool + align_up (2 ^ k) (3 * sizeofT)
  omega

/-- Witness of C11: capacity 64, alignment `8 = 2 ^ 3`, pool at address 4096,
`sizeof(T) = 4` and `sizeof(U) = 12`: the blocks start at offsets 0 and 16 and the
cursor ends at offset 40. -/
theorem rebind_preserves_aliasing_witness :
    3 < 64 ∧ (8 : Nat) = 2 ^ 3 ∧ 4096 + 64 < SIZE_MOD ∧
    spec_next_multiple 8 (3 * 4) + spec_next_multiple 8 (2 * 12) ≤ 64 ∧
    ((MyAllocator.ofPool 4 64 8 4096).allocate false Store.fresh 3).1
      = .block (4096 + 0) ∧
    ((MyAllocator.rebind 12 (MyAllocator.ofPool 4 64 8 4096)).allocate false
        ((MyAllocator.ofPool 4 64 8 4096).allocate false Store.fresh 3).2 2).1
      = .block (4096 + align_up 8 (3 * 4)) ∧
    (((MyAllocator.rebind 12 (MyAllocator.ofPool 4 64 8 4096)).allocate false
        ((MyAllocator.ofPool 4 64 8 4096).allocate false Store.fresh 3).2 2).2
        4096).m_ptr
      = 4096 + (align_up 8 (3 * 4) + align_up 8 (2 * 12)) ∧
    align_up 8 (3 * 4) = 16 ∧ align_up 8 (2 * 12) = 24 :=
  have h := rebind_preserves_aliasing 4 12 64 8 4096 3 false (by decide) (by decide)
    (by decide) (by decide)
  ⟨by decide, by decide, by decide, by decide, h.2.1, h.2.2.1, h.2.2.2.1, by decide,
   by decide⟩

/-! ## Blocks held under stack discipline -/

theorem stacked_base {cfg : PoolCfg} (bs : List Block) :
    ∀ c : Nat, Stacked cfg c bs → cfg.m_buffer ≤ c := by
  induction bs with
  | nil => intro c h; exact h
  | cons b bs ih =>
    intro c h
    obtain ⟨h1, _, h3⟩ := h
    have := ih _ h3
    omega

theorem stacked_below {cfg : PoolCfg} (bs : List Block) :
    ∀ c : Nat, Stacked cfg c bs → ∀ b ∈ bs, b.1 + b.2 ≤ c := by
  induction bs with
  | nil => intro c _ b hb; exact absurd hb (List.not_mem_nil b)
  | cons d bs ih =>
    intro c h b hb
    obtain ⟨h1, h2, h3⟩ := h
    rcases List.mem_cons.mp hb with rfl | hmem
    · omega
    · have := ih _ h3 b hmem
      omega

theorem stacked_pairwise {cfg : PoolCfg} (bs : List Block) :
    ∀ c : Nat, Stacked cfg c bs → bs.Pairwise Block.disjoint := by
  induction bs with
  | nil => intro c _; exact List.Pairwise.nil
  | cons d bs ih =>
    intro c h
    obtain ⟨_, _, h3⟩ := h
    refine List.Pairwise.cons ?_ (ih _ h3)
    intro b hb
    exact Or.inr (Or.inr (Or.inr (stacked_below bs _ h3 b hb)))

theorem stepLive_alloc_block {cfg : PoolCfg} {ndebug : Bool} {s : Pool × List Block}
    {size r : Nat} {st' : Pool} (h : allocate cfg ndebug s.1 size = (.block r, st')) :
    stepLive cfg ndebug s (.alloc size) = some (st', (r, size) :: s.2) := by
  simp only [stepLive, h]

theorem stepLive_alloc_null {cfg : PoolCfg} {ndebug : Bool} {s : Pool × List Block}
    {size : Nat} {st' : Pool} (h : allocate cfg ndebug s.1 size = (.null, st')) :
    stepLive cfg ndebug s (.alloc size) = some (st', s.2) := by
  simp only [stepLive, h]

theorem stepLive_alloc_abort {cfg : PoolCfg} {ndebug : Bool} {s : Pool × List Block}
    {size : Nat} {st' : Pool}
    (h : allocate cfg ndebug s.1 size = (.assertNeedMoreSpace, st')) :
    stepLive cfg ndebug s (.alloc size) = none := by
  simp only [stepLive, h]

theorem stepLive_stacked {cfg : PoolCfg} {ndebug : Bool} {k : Nat} (hk : k < 64)
    (ha : cfg.alignment = 2 ^ k) (hf : cfg.Fits) {s s' : Pool × List Block} {op : Op}
    (hinv : InBounds cfg s.1 ∧ Stacked cfg s.1.m_ptr s.2)
    (hsz : ∀ size : Nat, op = .alloc size → size + 2 ^ k ≤ SIZE_MOD)
    (hobey : ∀ p size : Nat, op = .dealloc p size → s.2.head? = some (p, size))
    (h : stepLive cfg ndebug s op = some s') :
    InBounds cfg s'.1 ∧ Stacked cfg s'.1.m_ptr s'.2 := by
  obtain ⟨hb, hst⟩ := hinv
  cases op with
  | alloc size =>
    by_cases hfit : s.1.m_ptr + align_up cfg.alignment size ≤ cfg.m_buffer + cfg.N
    · have he := allocate_fits ndebug size hf hb hfit
      rw [stepLive_alloc_block he] at h
      rw [← Option.some.inj h]
      have hle : size ≤ align_up cfg.alignment size := by
        rw [ha]
        exact le_align_up hk (hsz size rfl)
      exact ⟨⟨le_trans hb.1 (Nat.le_add_right _ _), hfit⟩, rfl, hle, hst⟩
    · have he := allocate_exhausted ndebug size hf hb (by omega)
      cases ndebug
      · have he' : allocate cfg false s.1 size = (.assertNeedMoreSpace, s.1) := he
        rw [stepLive_alloc_abort he'] at h
        exact absurd h (by simp)
      · have he' : allocate cfg true s.1 size = (.null, s.1) := he
        rw [stepLive_alloc_null he'] at h
        rw [← Option.some.inj h]
        exact ⟨hb, hst⟩
  | dealloc p size =>
    have hhead := hobey p size rfl
    obtain ⟨l1, l2⟩ := s
    cases l2 with
    | nil => exact absurd hhead (by simp)
    | cons b bs =>
      have hbeq : b = (p, size) := by simpa using hhead
      subst hbeq
      obtain ⟨h1, h2, h3⟩ := hst
      have hbase := stacked_base bs _ h3
      have hb2 : l1.m_ptr ≤ cfg.m_buffer + cfg.N := hb.2
      have h1' : p + align_up cfg.alignment size = l1.m_ptr := h1
      have hf64 : cfg.m_buffer + cfg.N < SIZE_MOD := hf
      have hw : pointer_within_buffer cfg p = true := by
        unfold pointer_within_buffer
        simp only [Bool.and_eq_true, decide_eq_true_eq]
        exact ⟨hbase, by omega⟩
      have hto : wrap (p + align_up cfg.alignment size) = l1.m_ptr := by
        rw [wrap_of_lt (by omega)]
        exact h1'
      have hstep : stepLive cfg ndebug (l1, (p, size) :: bs) (.dealloc p size)
          = some (⟨p⟩, bs) := by
        simp only [stepLive, deallocate_top hw hto, List.erase_cons_head]
      rw [hstep] at h
      rw [← Option.some.inj h]
      exact ⟨⟨hbase, by show p ≤ cfg.m_buffer + cfg.N; omega⟩, h3⟩

/-- The part of the no-overlap rule that the code keeps: for a power-of-two
alignment, in a run from a fresh pool that keeps stack discipline and requests
only sizes with `size + alignment ≤ 2 ^ 64`, the requested ranges of the blocks
held at the end are pairwise disjoint. -/
theorem live_blocks_disjoint_in_range (cfg : PoolCfg) (ndebug : Bool) (k : Nat)
    (hk : k < 64) (ha : cfg.alignment = 2 ^ k) (hf : cfg.Fits) (ops : List Op) :
    ∀ s s' : Pool × List Block, InBounds cfg s.1 ∧ Stacked cfg s.1.m_ptr s.2 →
      (∀ size : Nat, Op.alloc size ∈ ops → size + 2 ^ k ≤ SIZE_MOD) →
      obeysStack cfg ndebug s ops = true →
      runLive cfg ndebug s ops = some s' →
      (InBounds cfg s'.1 ∧ Stacked cfg s'.1.m_ptr s'.2) ∧
        s'.2.Pairwise Block.disjoint := by
  induction ops with
  | nil =>
    intro s s' hinv _ _ h
    simp only [runLive, Option.some.injEq] at h
    rw [← h]
    exact ⟨hinv, stacked_pairwise _ _ hinv.2⟩
  | cons op ops ih =>
    intro s s' hinv hsz hobey h
    unfold runLive at h
    unfold obeysStack at hobey
    rw [Bool.and_eq_true] at hobey
    cases hstep : stepLive cfg ndebug s op with
    | none => rw [hstep] at h; exact absurd h (by simp)
    | some s1 =>
      rw [hstep] at h
      have hob2 : obeysStack cfg ndebug s1 ops = true := by
        have := hobey.2
        rw [hstep] at this
        exact this
      have hinv1 := stepLive_stacked hk ha hf hinv
        (fun size he => hsz size (he ▸ List.mem_cons_self _ _))
        (fun p size he => by
          have := hobey.1
          rw [he] at this
          simpa using this)
        hstep
      exact ih s1 s' hinv1 (fun size hm => hsz size (List.mem_cons_of_mem _ hm)) hob2 h

/-- C15, evaluation at the failing input.  Capacity 64, alignment 8, buffer at
address 4096, fresh pool.  The run `allocate(2 ^ 64 - 1)`, `allocate(8)` contains
no `deallocate` and so keeps stack discipline; both requests are granted at offset
0, the first because its rounded size wraps around to 0, and the requested ranges
`[4096, 4096 + 2 ^ 64 - 1)` and `[4096, 4104)` of the two blocks held overlap. -/
theorem live_blocks_overlap_size_max : ∀ ndebug : Bool,
    obeysStack ⟨64, 8, 4096⟩ ndebug (Pool.init ⟨64, 8, 4096⟩, [])
      [.alloc (2 ^ 64 - 1), .alloc 8] = true ∧
    runLive ⟨64, 8, 4096⟩ ndebug (Pool.init ⟨64, 8, 4096⟩, [])
      [.alloc (2 ^ 64 - 1), .alloc 8]
      = some (⟨4104⟩, [(4096, 8), (4096, 2 ^ 64 - 1)]) ∧
    ¬ List.Pairwise Block.disjoint [((4096, 8) : Block), (4096, 2 ^ 64 - 1)] := by
  intro ndebug
  cases ndebug <;> decide

end StackAllocator
